import Mathlib

/-!
Shallow embedding of the cymatics job-lifecycle scheduler
(`src/cymatics/services/cycle_scheduler.py`) and of the transcription
lifecycle manager (`src/cymatics/services/transmutation_service.py`).

Files are modelled as records carrying the pieces of filesystem metadata
the scheduler reads (`Path.stem`, `Path.suffix`, `stat().st_size`,
`stat().st_mtime`); a directory is a list of such records.  The mutable
state of a `CycleSchedulerService` instance is the `SchedState` record.
External failures that the Python code observes as exceptions (a file
vanishing between two system calls, a move or write raising, the engine
raising) are supplied per file through `FileEvents`; every `try/except`
of the source is translated into an explicit `match` on an `Except`
value, so a missing handler in the source would surface as an `.error`
escaping the corresponding Lean definition.
-/

namespace Cymatics

/-- A regular file as the scheduler observes it: `stem` and `ext` are
`Path.stem` and `Path.suffix` (so the file name is `stem ++ ext`),
`size` is `stat().st_size` and `mtime` is `stat().st_mtime`. -/
structure FsFile where
  stem : String
  ext : String
  size : Nat
  mtime : Int
deriving DecidableEq, Repr

/-- `Path.name`: the file name is the stem followed by the suffix. -/
def FsFile.name (f : FsFile) : String := f.stem ++ f.ext

/-- `CycleSchedulerService.SUPPORTED_EXTENSIONS`. -/
def SUPPORTED_EXTENSIONS : List String :=
  [".mp3", ".wav", ".m4a", ".flac", ".aac", ".mp4", ".mkv", ".mov"]

/-- `str.lower()`: Python lowercases a string character by character;
modelled as a map over the string's characters. -/
def lowerString (s : String) : String := String.mk (s.data.map Char.toLower)

/-- `f.suffix.lower() in self.SUPPORTED_EXTENSIONS`. -/
def supportedFile (f : FsFile) : Bool :=
  SUPPORTED_EXTENSIONS.contains (lowerString f.ext)

/-- Insert a file into a name-sorted list (comparison on full names,
mirroring `sorted` over `Path` objects of a single directory). -/
def insertByName (f : FsFile) : List FsFile → List FsFile
  | [] => [f]
  | g :: gs => if f.name ≤ g.name then f :: g :: gs else g :: insertByName f gs

/-- `sorted(...)` over the discovered files. -/
def sortByName : List FsFile → List FsFile
  | [] => []
  | f :: fs => insertByName f (sortByName fs)

/-- Lookup in the `self._file_sizes` dict. -/
def lookupSize : List (String × Nat) → String → Option Nat
  | [], _ => none
  | (k, v) :: rest, key => if k = key then some v else lookupSize rest key

/-- Dict assignment `self._file_sizes[key] = value`. -/
def setSize : List (String × Nat) → String → Nat → List (String × Nat)
  | [], key, v => [(key, v)]
  | (k, w) :: rest, key, v =>
    if k = key then (key, v) :: rest else (k, w) :: setSize rest key v

/-- Dict deletion `del self._file_sizes[key]`. -/
def eraseSize (m : List (String × Nat)) (key : String) : List (String × Nat) :=
  m.filter (fun kv => kv.1 != key)

/-- The names of the files of a directory listing. -/
def names (l : List FsFile) : List String := l.map FsFile.name

/-- Remove the file called `n` from a directory listing (the source side
of a `shutil.move` out of the directory). -/
def removeName (l : List FsFile) (n : String) : List FsFile :=
  l.filter (fun g => g.name != n)

/-- `shutil.move` into a directory: the file lands under its own name,
silently replacing an existing file of that name (POSIX rename). -/
def moveInto (l : List FsFile) (f : FsFile) : List FsFile :=
  f :: removeName l f.name

/-- The mutable state of a `CycleSchedulerService` together with the
four directories it owns.  `completedArtifacts` records the artifact
files written into `completed/`; `errorLogs` records each
`<stem>.error.txt` written into `failed/` as a `(stem, reason)` pair. -/
structure SchedState where
  incoming : List FsFile
  processing : List FsFile
  completed : List FsFile
  failed : List FsFile
  completedArtifacts : List String
  errorLogs : List (String × String)
  fileSizes : List (String × Nat)
  currentFile : Option String
  recentCompleted : List String
deriving DecidableEq, Repr

/-- External events affecting one file during a pass: vanishing between
two system calls (observed as `OSError` from `stat`), and failures of
the fallible operations the scheduler runs on the file. -/
structure FileEvents where
  statFailsDuringDiscovery : Bool
  vanishesBeforeStability : Bool
  vanishesBeforeValidity : Bool
  moveToProcessingFails : Bool
  engineFails : Bool
  engineError : String
  artifactWriteFails : Bool
  moveToCompletedFails : Bool
  moveToFailedFails : Bool
  errorLogWriteFails : Bool
deriving DecidableEq, Repr

/-- The quiescent events: nothing vanishes and nothing fails. -/
def noEvents : FileEvents :=
  { statFailsDuringDiscovery := false
    vanishesBeforeStability := false
    vanishesBeforeValidity := false
    moveToProcessingFails := false
    engineFails := false
    engineError := ""
    artifactWriteFails := false
    moveToCompletedFails := false
    moveToFailedFails := false
    errorLogWriteFails := false }

/-- `_discover_files`: list the incoming directory, keep regular files
with a supported extension and positive size, sorted by name.  The
`f.stat().st_size > 0` test is not guarded by a `try`, so a `stat`
failure there (the file vanishing between the directory listing and the
`stat` call) escapes as an exception. -/
def discover_filesE (ev : String → FileEvents) : List FsFile → Except String (List FsFile)
  | [] => Except.ok []
  | f :: fs =>
    if supportedFile f then
      if (ev f.name).statFailsDuringDiscovery then
        Except.error "stat failed during discovery"
      else
        match discover_filesE ev fs with
        | Except.error e => Except.error e
        | Except.ok rest =>
          Except.ok (if decide (0 < f.size) then f :: rest else rest)
    else
      match discover_filesE ev fs with
      | Except.error e => Except.error e
      | Except.ok rest => Except.ok rest

/-- `_discover_files` when no `stat` fails during the scan. -/
def discover_files (incoming : List FsFile) : List FsFile :=
  sortByName (incoming.filter (fun f => supportedFile f && decide (0 < f.size)))

/-- The `stat` results seen by `_is_file_stable`: `none` models the
`OSError` of a vanished file, otherwise size and modification time. -/
def statForStability (f : FsFile) (e : FileEvents) : Option (Nat × Int) :=
  if e.vanishesBeforeStability then none else some (f.size, f.mtime)

/-- `_is_file_stable`: returns the reported stability together with the
updated `_file_sizes` map.  On `OSError` it reports not-stable and
leaves the map untouched; within the debounce window it reports
not-stable before any record is created; a first observation records the
size; a changed size updates the record; a matching record is deleted
and the file reported stable. -/
def is_file_stable (sizes : List (String × Nat)) (now debounce : Int)
    (key : String) (statResult : Option (Nat × Int)) : Bool × List (String × Nat) :=
  match statResult with
  | none => (false, sizes)
  | some (currentSize, mtime) =>
    if now - mtime < debounce then (false, sizes)
    else
      match lookupSize sizes key with
      | none => (false, setSize sizes key currentSize)
      | some recorded =>
        if recorded ≠ currentSize then (false, setSize sizes key currentSize)
        else (true, eraseSize sizes key)

/-- `_is_valid_file`: a fresh `stat`; `OSError` (the file vanished)
reads as invalid, otherwise the size must be positive. -/
def is_valid_file (f : FsFile) (e : FileEvents) : Bool :=
  if e.vanishesBeforeStability || e.vanishesBeforeValidity then false
  else decide (0 < f.size)

/-- The reason string of `_process_incoming_files` for invalid files. -/
def invalidReason : String := "Invalid file (zero bytes or unreadable)"

/-- The directory a file is moved to `failed/` from. -/
inductive SrcDir where
  | incoming
  | processing
deriving DecidableEq, Repr

/-- `_move_to_failed`: inside one `try`, move the file (if it still
exists) into `failed/`, then write `<stem>.error.txt`; any exception is
caught and logged, so a failing move leaves everything untouched and a
failing log write leaves an already-performed move in place. -/
def move_to_failed (st : SchedState) (src : SrcDir) (f : FsFile) (reason : String)
    (fexists moveFails writeFails : Bool) : SchedState :=
  if fexists then
    if moveFails then st
    else
      let st1 :=
        match src with
        | SrcDir.incoming =>
          { st with incoming := removeName st.incoming f.name
                    failed := moveInto st.failed f }
        | SrcDir.processing =>
          { st with processing := removeName st.processing f.name
                    failed := moveInto st.failed f }
      if writeFails then st1
      else { st1 with errorLogs := (f.stem, reason) :: st1.errorLogs }
  else
    if writeFails then st
    else { st with errorLogs := (f.stem, reason) :: st.errorLogs }

/-- `deque(maxlen=10).append`: appending to a full deque first evicts
the oldest entry. -/
def dequeAppend (xs : List String) (x : String) : List String :=
  if xs.length < 10 then xs ++ [x] else xs.tail ++ [x]

/-- `_process_file`: set `current_file`; try to move the file into
`processing/` (on failure, clear `current_file` and return); then run
the engine, write the artifacts, move the file to `completed/` and
append to `recent_completed`, where any exception of that block sends
the file from `processing/` to `failed/` via `_move_to_failed`; a
`finally` clears `current_file` on every path. -/
def process_file (st0 : SchedState) (f : FsFile) (e : FileEvents) : SchedState :=
  let st := { st0 with currentFile := some f.name }
  if e.moveToProcessingFails then { st with currentFile := none }
  else
    let st1 := { st with incoming := removeName st.incoming f.name
                         processing := moveInto st.processing f }
    let body : Except (String × SchedState) SchedState :=
      if e.engineFails then Except.error (e.engineError, st1)
      else if e.artifactWriteFails then Except.error ("artifact write failed", st1)
      else
        let st2 := { st1 with completedArtifacts :=
          (f.stem ++ ".json") :: (f.stem ++ ".txt") :: st1.completedArtifacts }
        if e.moveToCompletedFails then Except.error ("move to completed failed", st2)
        else
          let st3 := { st2 with processing := removeName st2.processing f.name
                                completed := moveInto st2.completed f }
          Except.ok { st3 with recentCompleted := dequeAppend st3.recentCompleted f.name }
    match body with
    | Except.ok stS => { stS with currentFile := none }
    | Except.error (msg, stF) =>
      { move_to_failed stF SrcDir.processing f msg true
          e.moveToFailedFails e.errorLogWriteFails with currentFile := none }

/-- Whether the file still exists when `_move_to_failed` is reached on
the invalid-file path of `_process_incoming_files`. -/
def fileExistsForFailed (e : FileEvents) : Bool :=
  !e.vanishesBeforeStability && !e.vanishesBeforeValidity

/-- The body of the `for` loop of `_process_incoming_files` for one
candidate file: stability check (continue when not stable), validity
check (route to `failed/` when invalid), otherwise `_process_file`. -/
def step (now debounce : Int) (ev : String → FileEvents) (st : SchedState)
    (f : FsFile) : SchedState :=
  let e := ev f.name
  let res := is_file_stable st.fileSizes now debounce f.name (statForStability f e)
  let st1 := { st with fileSizes := res.2 }
  if res.1 = false then st1
  else if is_valid_file f e = false then
    move_to_failed st1 SrcDir.incoming f invalidReason (fileExistsForFailed e)
      e.moveToFailedFails e.errorLogWriteFails
  else process_file st1 f e

/-- `_process_incoming_files`: discover the candidates (where a `stat`
failure during the scan escapes as an exception), then run the loop body
on each in order; the loop body itself returns on every input, every
exception inside it being consumed by a handler of the source. -/
def process_incoming_filesE (now debounce : Int) (ev : String → FileEvents)
    (st : SchedState) : Except String SchedState :=
  match discover_filesE ev st.incoming with
  | Except.error e => Except.error e
  | Except.ok files => Except.ok ((sortByName files).foldl (step now debounce ev) st)

/-- One discovery-and-process pass in the absence of discovery-time
`stat` failures. -/
def runPass (now debounce : Int) (ev : String → FileEvents) (st : SchedState) : SchedState :=
  (discover_files st.incoming).foldl (step now debounce ev) st

/-- `ModelState` of `cymatics.models`. -/
inductive ModelState where
  | unloaded
  | loading
  | ready
deriving DecidableEq, Repr

/-- `QueueStatus` of `cymatics.models`. -/
structure QueueStatus where
  queue_length : Nat
  current_file : Option String
  model_state : ModelState
  recent_completed : List String
deriving DecidableEq, Repr

/-- `get_queue_status`: re-scan the incoming directory counting regular
files whose lowered suffix is supported (no size test), and snapshot
`current_file`, the engine state and `recent_completed`. -/
def get_queue_status (st : SchedState) (modelState : ModelState) : QueueStatus :=
  { queue_length := (st.incoming.filter (fun f => supportedFile f)).length
    current_file := st.currentFile
    model_state := modelState
    recent_completed := st.recentCompleted }

/-- Queue length as §4.1 of the spec words it: eligible files have
`size>0` and a matching extension.  Stated from the spec for comparison
with `get_queue_status`. -/
def spec_queue_length (incoming : List FsFile) : Nat :=
  (incoming.filter (fun f => supportedFile f && decide (0 < f.size))).length

/-- `_recover_orphaned_files`: every regular file of `processing/` is
moved back into `incoming/` (all entries of the model are regular
files), leaving `processing/` empty. -/
def recover_orphaned_files (st : SchedState) : SchedState :=
  { st with processing := []
            incoming := st.processing.foldl moveInto st.incoming }

/-- `__init__`: directories are created and orphan recovery runs before
any polling can start. -/
def scheduler_init (incoming processing completed failed : List FsFile) : SchedState :=
  recover_orphaned_files
    { incoming := incoming
      processing := processing
      completed := completed
      failed := failed
      completedArtifacts := []
      errorLogs := []
      fileSizes := []
      currentFile := none
      recentCompleted := [] }

/-- `start`: directories are ensured and orphan recovery runs again
before the interval job is added and the scheduler begins ticking. -/
def scheduler_start (st : SchedState) : SchedState :=
  recover_orphaned_files st

/-- The mutable state of a `TransmutationService` instance.  The pending
idle-unload timer is modelled as the identifier of the currently armed
`asyncio` task (`none` when no task is armed); `nextTaskId` is a fresh
identifier supply, so creating a new task is visible as a strictly newer
identifier. -/
structure LifeState where
  modelState : ModelState
  lastUsedAt : Option Int
  unloadTask : Option Nat
  nextTaskId : Nat
deriving DecidableEq, Repr

/-- Failures the lifecycle manager can observe during one `transcribe`
call: the engine load raising, the inference raising, and the file read
of `_compute_file_hash` raising. -/
structure TransEvents where
  loadFails : Bool
  engineFails : Bool
  hashFails : Bool
deriving DecidableEq, Repr

/-- `_schedule_unload`: cancel the previously armed task (if any) and
arm a fresh one for the configured idle duration. -/
def schedule_unload (st : LifeState) : LifeState :=
  { st with unloadTask := some st.nextTaskId
            nextTaskId := st.nextTaskId + 1 }

/-- `_load_model`: a no-op unless the state is `unloaded`; on failure
the state is put back to `unloaded` and the error propagates. -/
def load_model (st : LifeState) (loadFails : Bool) : LifeState × Except String Unit :=
  if st.modelState = ModelState.unloaded then
    if loadFails then ({ st with modelState := ModelState.unloaded }, Except.error "load failed")
    else ({ st with modelState := ModelState.ready }, Except.ok ())
  else (st, Except.ok ())

/-- `transcribe`: load the model when unloaded (a load failure
propagates before the `try` block is entered); a failing inference is
re-raised by the `except` clause without touching the timer; on
inference success the last-use timestamp is recorded and
`_schedule_unload` re-arms the timer, after which the file-hash
computation may still raise (re-raised by the same `except` clause,
with the fresh timer left armed). -/
def transcribe (st : LifeState) (e : TransEvents) (now : Int) : LifeState × Except String Unit :=
  match load_model st e.loadFails with
  | (st1, Except.error m) => (st1, Except.error m)
  | (st1, Except.ok _) =>
    if e.engineFails then (st1, Except.error "engine failed")
    else
      let st2 := schedule_unload { st1 with lastUsedAt := some now }
      if e.hashFails then (st2, Except.error "hash failed")
      else (st2, Except.ok ())

/-! ### Concrete instances used by counterexamples and witnesses -/

/-- A scheduler state with all directories and all tracking state empty. -/
def baseState : SchedState :=
  { incoming := []
    processing := []
    completed := []
    failed := []
    completedArtifacts := []
    errorLogs := []
    fileSizes := []
    currentFile := none
    recentCompleted := [] }

/-- A zero-byte file with a supported extension. -/
def emptyMp3 : FsFile := { stem := "empty", ext := ".mp3", size := 0, mtime := 0 }

/-- A well-formed candidate file with a supported extension. -/
def goodMp3 : FsFile := { stem := "good", ext := ".mp3", size := 1200, mtime := 0 }

/-- The event assignment where nothing vanishes and nothing fails. -/
def evQuiet : String → FileEvents := fun _ => noEvents

/-- Incoming holds a single zero-byte supported file. -/
def c1State : SchedState := { baseState with incoming := [emptyMp3] }

/-- The file watched by the C2 witness: its current size differs from its
recorded size. -/
def c2File : FsFile := { stem := "w", ext := ".mp3", size := 5, mtime := 0 }

/-- A state where `c2File` is in incoming with a stale size record. -/
def c2State : SchedState :=
  { baseState with incoming := [c2File], fileSizes := [("w.mp3", 3)] }

/-- A lifecycle state with a loaded model and an armed idle-unload task
(task identifier 0). -/
def c3State : LifeState :=
  { modelState := ModelState.ready
    lastUsedAt := none
    unloadTask := some 0
    nextTaskId := 1 }

/-- Engine inference fails; nothing else does. -/
def c3Events : TransEvents := { loadFails := false, engineFails := true, hashFails := false }

/-- A fully successful transcription call. -/
def c3OkEvents : TransEvents := { loadFails := false, engineFails := false, hashFails := false }

/-- The file that vanishes between discovery and the stability `stat`. -/
def c5File : FsFile := { stem := "ghost", ext := ".mp3", size := 7, mtime := 0 }

/-- A state where `c5File` is listed in incoming at discovery time. -/
def c5State : SchedState := { baseState with incoming := [c5File] }

/-- Every file vanishes between discovery and the stability `stat`. -/
def evVanishStability : String → FileEvents :=
  fun _ => { noEvents with vanishesBeforeStability := true }

/-- A state with one good candidate in incoming. -/
def c6State : SchedState := { baseState with incoming := [goodMp3] }

/-- Every file vanishes between the directory listing and the size
`stat` inside discovery. -/
def evDiscoveryStat : String → FileEvents :=
  fun _ => { noEvents with statFailsDuringDiscovery := true }

/-- An orphaned file found in processing at startup. -/
def orphanMp3 : FsFile := { stem := "orphan", ext := ".mp3", size := 9, mtime := 0 }

/-- A state holding a stability record for a file that is no longer
present in incoming. -/
def c9State : SchedState := { baseState with fileSizes := [("ghost.mp3", 5)] }

/-- A state where `c5File` has a matching stability record, so the next
check will judge it stable. -/
def c5bState : SchedState :=
  { baseState with incoming := [c5File], fileSizes := [("ghost.mp3", 7)] }

/-- Every file vanishes between the stability check and the validity
`stat`. -/
def evVanishValidity : String → FileEvents :=
  fun _ => { noEvents with vanishesBeforeValidity := true }

/-- A state whose recent-completed list is full (10 entries). -/
def c8State : SchedState :=
  { baseState with recentCompleted :=
      ["a0", "a1", "a2", "a3", "a4", "a5", "a6", "a7", "a8", "a9"] }

/-! ### Association-list and directory-listing lemmas -/

theorem lookupSize_setSize_self (m : List (String × Nat)) (k : String) (v : Nat) :
    lookupSize (setSize m k v) k = some v := by
  induction m with
  | nil => simp [setSize, lookupSize]
  | cons kv rest ih =>
    by_cases h : kv.1 = k
    · simp [setSize, h, lookupSize]
    · simp [setSize, h, lookupSize, ih]

theorem lookupSize_setSize_other (m : List (String × Nat)) (k k' : String) (v : Nat)
    (h : k' ≠ k) : lookupSize (setSize m k v) k' = lookupSize m k' := by
  have h2 : ¬ k = k' := fun hh => h hh.symm
  induction m with
  | nil => simp [setSize, lookupSize, h2]
  | cons kv rest ih =>
    by_cases hk : kv.1 = k
    · have h3 : ¬ kv.1 = k' := by rw [hk]; exact h2
      simp [setSize, hk, lookupSize, h2, h3]
    · simp [setSize, hk, lookupSize, ih]

theorem lookupSize_eraseSize_self (m : List (String × Nat)) (k : String) :
    lookupSize (eraseSize m k) k = none := by
  induction m with
  | nil => simp [eraseSize, lookupSize]
  | cons kv rest ih =>
    by_cases h : kv.1 = k
    · simpa [eraseSize, List.filter_cons, h] using ih
    · simpa [eraseSize, List.filter_cons, h, lookupSize] using ih

theorem lookupSize_eraseSize_other (m : List (String × Nat)) (k k' : String)
    (h : k' ≠ k) : lookupSize (eraseSize m k) k' = lookupSize m k' := by
  have h2 : ¬ k = k' := fun hh => h hh.symm
  induction m with
  | nil => simp [eraseSize, lookupSize]
  | cons kv rest ih =>
    by_cases hk : kv.1 = k
    · simp [eraseSize, List.filter_cons, hk, lookupSize, h2]
      simpa [eraseSize] using ih
    · have ih2 := ih
      simp only [eraseSize] at ih2
      simp [eraseSize, List.filter_cons, hk, lookupSize, ih2]

theorem mem_removeName (l : List FsFile) (n : String) (g : FsFile) :
    g ∈ removeName l n ↔ g ∈ l ∧ g.name ≠ n := by
  simp [removeName, List.mem_filter]

theorem mem_names (l : List FsFile) (n : String) :
    n ∈ names l ↔ ∃ g ∈ l, g.name = n := by
  simp [names, List.mem_map]

theorem mem_names_of_mem {l : List FsFile} {g : FsFile} (h : g ∈ l) :
    g.name ∈ names l := (mem_names l g.name).2 ⟨g, h, rfl⟩

theorem mem_moveInto (l : List FsFile) (f g : FsFile) :
    g ∈ moveInto l f ↔ g = f ∨ (g ∈ l ∧ g.name ≠ f.name) := by
  simp [moveInto, mem_removeName]

theorem mem_names_moveInto (l : List FsFile) (f : FsFile) (n : String) :
    n ∈ names (moveInto l f) ↔ n = f.name ∨ n ∈ names l := by
  constructor
  · intro h
    rcases (mem_names _ _).1 h with ⟨g, hg, rfl⟩
    rcases (mem_moveInto l f g).1 hg with rfl | ⟨hmem, _⟩
    · exact Or.inl rfl
    · exact Or.inr (mem_names_of_mem hmem)
  · rintro (rfl | h)
    · exact (mem_names _ _).2 ⟨f, (mem_moveInto l f f).2 (Or.inl rfl), rfl⟩
    · rcases (mem_names _ _).1 h with ⟨g, hg, rfl⟩
      by_cases hn : g.name = f.name
      · exact hn ▸ (mem_names _ _).2 ⟨f, (mem_moveInto l f f).2 (Or.inl rfl), rfl⟩
      · exact (mem_names _ _).2 ⟨g, (mem_moveInto l f g).2 (Or.inr ⟨hg, hn⟩), rfl⟩

theorem names_removeName (l : List FsFile) (n : String) :
    names (removeName l n) = (names l).filter (fun m => m != n) := by
  induction l with
  | nil => rfl
  | cons g gs ih =>
    by_cases h : g.name = n
    · simpa [removeName, names, List.filter_cons, h] using ih
    · simpa [removeName, names, List.filter_cons, h] using ih

theorem nodup_names_moveInto (l : List FsFile) (f : FsFile)
    (h : (names l).Nodup) : (names (moveInto l f)).Nodup := by
  have hrm : (names (removeName l f.name)).Nodup := by
    rw [names_removeName]; exact h.filter _
  have hni : f.name ∉ names (removeName l f.name) := by
    rw [names_removeName]
    intro hc
    rcases List.mem_filter.1 hc with ⟨_, hne⟩
    simp at hne
  simpa [moveInto, names] using List.Nodup.cons hni hrm

theorem mem_insertByName (l : List FsFile) (f g : FsFile) :
    g ∈ insertByName f l ↔ g = f ∨ g ∈ l := by
  induction l with
  | nil => simp [insertByName]
  | cons x xs ih =>
    by_cases h : f.name ≤ x.name
    · simp [insertByName, h]
    · simp [insertByName, h, ih]
      tauto

theorem insertByName_perm (f : FsFile) (m : List FsFile) :
    (insertByName f m).Perm (f :: m) := by
  induction m with
  | nil => simp [insertByName]
  | cons x xs ihx =>
    by_cases h : f.name ≤ x.name
    · simp [insertByName, h]
    · simp only [insertByName, if_neg h]
      exact (List.Perm.cons x ihx).trans (List.Perm.swap f x xs)

theorem sortByName_perm (l : List FsFile) : (sortByName l).Perm l := by
  induction l with
  | nil => simp [sortByName]
  | cons f fs ih =>
    exact (insertByName_perm f (sortByName fs)).trans (List.Perm.cons f ih)

theorem mem_sortByName (l : List FsFile) (g : FsFile) :
    g ∈ sortByName l ↔ g ∈ l := (sortByName_perm l).mem_iff

/-! ### Case analysis of the stability check -/

theorem is_file_stable_none (sizes : List (String × Nat)) (now db : Int) (key : String) :
    is_file_stable sizes now db key none = (false, sizes) := rfl

theorem is_file_stable_recent (sizes : List (String × Nat)) (now db : Int) (key : String)
    (cs : Nat) (mt : Int) (h : now - mt < db) :
    is_file_stable sizes now db key (some (cs, mt)) = (false, sizes) := by
  simp [is_file_stable, h]

theorem is_file_stable_first (sizes : List (String × Nat)) (now db : Int) (key : String)
    (cs : Nat) (mt : Int) (h : ¬ now - mt < db) (hl : lookupSize sizes key = none) :
    is_file_stable sizes now db key (some (cs, mt)) = (false, setSize sizes key cs) := by
  simp [is_file_stable, h, hl]

theorem is_file_stable_changed (sizes : List (String × Nat)) (now db : Int) (key : String)
    (cs r : Nat) (mt : Int) (h : ¬ now - mt < db) (hl : lookupSize sizes key = some r)
    (hne : r ≠ cs) :
    is_file_stable sizes now db key (some (cs, mt)) = (false, setSize sizes key cs) := by
  simp [is_file_stable, h, hl, hne]

theorem is_file_stable_match (sizes : List (String × Nat)) (now db : Int) (key : String)
    (cs : Nat) (mt : Int) (h : ¬ now - mt < db) (hl : lookupSize sizes key = some cs) :
    is_file_stable sizes now db key (some (cs, mt)) = (true, eraseSize sizes key) := by
  simp [is_file_stable, h, hl]

theorem is_file_stable_lookup_other (sizes : List (String × Nat)) (now db : Int)
    (key : String) (sr : Option (Nat × Int)) (n : String) (hn : n ≠ key) :
    lookupSize (is_file_stable sizes now db key sr).2 n = lookupSize sizes n := by
  cases sr with
  | none => rfl
  | some p =>
    obtain ⟨cs, mt⟩ := p
    by_cases h : now - mt < db
    · simp [is_file_stable, h]
    · cases hl : lookupSize sizes key with
      | none => simp [is_file_stable, h, hl, lookupSize_setSize_other _ _ _ _ hn]
      | some r =>
        by_cases h2 : r = cs
        · simp [is_file_stable, h, hl, h2, lookupSize_eraseSize_other _ _ _ hn]
        · simp [is_file_stable, h, hl, h2, lookupSize_setSize_other _ _ _ _ hn]

theorem is_file_stable_mismatch (sizes : List (String × Nat)) (now db : Int)
    (f : FsFile) (e : FileEvents) (r : Nat)
    (hl : lookupSize sizes f.name = some r) (hne : r ≠ f.size) :
    (is_file_stable sizes now db f.name (statForStability f e)).1 = false := by
  unfold statForStability
  by_cases hv : e.vanishesBeforeStability
  · simp [hv, is_file_stable]
  · by_cases h : now - f.mtime < db
    · simp [hv, is_file_stable_recent _ _ _ _ _ _ h]
    · simp [hv, is_file_stable_changed _ _ _ _ _ r _ h hl hne]

theorem is_file_stable_erases_on_true (sizes : List (String × Nat)) (now db : Int)
    (key : String) (sr : Option (Nat × Int))
    (h : (is_file_stable sizes now db key sr).1 = true) :
    (is_file_stable sizes now db key sr).2 = eraseSize sizes key := by
  cases sr with
  | none => simp [is_file_stable] at h
  | some p =>
    obtain ⟨cs, mt⟩ := p
    by_cases hr : now - mt < db
    · simp [is_file_stable, hr] at h
    · cases hl : lookupSize sizes key with
      | none => simp [is_file_stable, hr, hl] at h
      | some r =>
        by_cases h2 : r = cs
        · simp [is_file_stable, hr, hl, h2]
        · simp [is_file_stable, hr, hl, h2] at h

/-! ### Frame lemmas for `_move_to_failed` and `_process_file` -/

theorem move_to_failed_fileSizes (st : SchedState) (src : SrcDir) (f : FsFile)
    (reason : String) (a b c : Bool) :
    (move_to_failed st src f reason a b c).fileSizes = st.fileSizes := by
  cases a <;> cases b <;> cases c <;> cases src <;> simp [move_to_failed]

theorem move_to_failed_currentFile (st : SchedState) (src : SrcDir) (f : FsFile)
    (reason : String) (a b c : Bool) :
    (move_to_failed st src f reason a b c).currentFile = st.currentFile := by
  cases a <;> cases b <;> cases c <;> cases src <;> simp [move_to_failed]

theorem move_to_failed_recent (st : SchedState) (src : SrcDir) (f : FsFile)
    (reason : String) (a b c : Bool) :
    (move_to_failed st src f reason a b c).recentCompleted = st.recentCompleted := by
  cases a <;> cases b <;> cases c <;> cases src <;> simp [move_to_failed]

theorem mem_incoming_move_to_failed (st : SchedState) (src : SrcDir) (f : FsFile)
    (reason : String) (a b c : Bool) (g : FsFile) (hg : g.name ≠ f.name) :
    (g ∈ (move_to_failed st src f reason a b c).incoming ↔ g ∈ st.incoming) := by
  cases a <;> cases b <;> cases c <;> cases src <;>
    simp [move_to_failed, mem_removeName, hg]

theorem names_processing_move_to_failed (st : SchedState) (src : SrcDir) (f : FsFile)
    (reason : String) (a b c : Bool) (n : String) (hn : n ≠ f.name) :
    (n ∈ names (move_to_failed st src f reason a b c).processing ↔
      n ∈ names st.processing) := by
  cases a <;> cases b <;> cases c <;> cases src <;>
    simp [move_to_failed, names_removeName, List.mem_filter, hn]

theorem names_failed_move_to_failed (st : SchedState) (src : SrcDir) (f : FsFile)
    (reason : String) (a b c : Bool) (n : String) (hn : n ≠ f.name) :
    (n ∈ names (move_to_failed st src f reason a b c).failed ↔ n ∈ names st.failed) := by
  cases a <;> cases b <;> cases c <;> cases src <;>
    simp [move_to_failed, mem_names_moveInto, hn]

theorem fileSizes_process_file (st : SchedState) (f : FsFile) (e : FileEvents) :
    (process_file st f e).fileSizes = st.fileSizes := by
  unfold process_file
  split_ifs <;> simp_all [move_to_failed_fileSizes]

theorem currentFile_process_file (st : SchedState) (f : FsFile) (e : FileEvents) :
    (process_file st f e).currentFile = none := by
  unfold process_file
  split_ifs <;> simp_all

theorem mem_incoming_process_file (st : SchedState) (f : FsFile) (e : FileEvents)
    (g : FsFile) (hg : g.name ≠ f.name) :
    (g ∈ (process_file st f e).incoming ↔ g ∈ st.incoming) := by
  unfold process_file
  split_ifs <;>
    simp_all [mem_incoming_move_to_failed _ _ _ _ _ _ _ _ hg, mem_removeName, hg]

theorem names_processing_process_file (st : SchedState) (f : FsFile) (e : FileEvents)
    (n : String) (hn : n ≠ f.name) :
    (n ∈ names (process_file st f e).processing ↔ n ∈ names st.processing) := by
  unfold process_file
  split_ifs <;>
    simp_all [names_processing_move_to_failed _ _ _ _ _ _ _ _ hn, mem_names_moveInto,
      names_removeName, List.mem_filter, hn]

theorem names_failed_process_file (st : SchedState) (f : FsFile) (e : FileEvents)
    (n : String) (hn : n ≠ f.name) :
    (n ∈ names (process_file st f e).failed ↔ n ∈ names st.failed) := by
  unfold process_file
  split_ifs <;> simp_all [names_failed_move_to_failed _ _ _ _ _ _ _ _ hn]

theorem recent_process_file (st : SchedState) (f : FsFile) (e : FileEvents) :
    (process_file st f e).recentCompleted =
      if e.moveToProcessingFails || e.engineFails || e.artifactWriteFails
          || e.moveToCompletedFails then st.recentCompleted
      else dequeAppend st.recentCompleted f.name := by
  unfold process_file
  split_ifs <;> simp_all [move_to_failed_recent]

/-! ### Frame lemmas for one loop-body step and for the whole pass -/

theorem fileSizes_step_other (now db : Int) (ev : String → FileEvents) (st : SchedState)
    (f : FsFile) (n : String) (hn : n ≠ f.name) :
    lookupSize (step now db ev st f).fileSizes n = lookupSize st.fileSizes n := by
  have hst := is_file_stable_lookup_other st.fileSizes now db f.name
    (statForStability f (ev f.name)) n hn
  unfold step
  dsimp only
  split_ifs
  · simpa using hst
  · simpa [move_to_failed_fileSizes] using hst
  · simpa [fileSizes_process_file] using hst

theorem mem_incoming_step_other (now db : Int) (ev : String → FileEvents) (st : SchedState)
    (f g : FsFile) (hg : g.name ≠ f.name) :
    (g ∈ (step now db ev st f).incoming ↔ g ∈ st.incoming) := by
  unfold step
  dsimp only
  split_ifs
  · simp
  · simpa using mem_incoming_move_to_failed _ _ _ _ _ _ _ _ hg
  · simpa using mem_incoming_process_file _ _ _ _ hg

theorem names_processing_step_other (now db : Int) (ev : String → FileEvents)
    (st : SchedState) (f : FsFile) (n : String) (hn : n ≠ f.name) :
    (n ∈ names (step now db ev st f).processing ↔ n ∈ names st.processing) := by
  unfold step
  dsimp only
  split_ifs
  · simp
  · simpa using names_processing_move_to_failed _ _ _ _ _ _ _ _ hn
  · simpa using names_processing_process_file _ _ _ _ hn

theorem names_failed_step_other (now db : Int) (ev : String → FileEvents)
    (st : SchedState) (f : FsFile) (n : String) (hn : n ≠ f.name) :
    (n ∈ names (step now db ev st f).failed ↔ n ∈ names st.failed) := by
  unfold step
  dsimp only
  split_ifs
  · simp
  · simpa using names_failed_move_to_failed _ _ _ _ _ _ _ _ hn
  · simpa using names_failed_process_file _ _ _ _ hn

theorem recent_step_cases (now db : Int) (ev : String → FileEvents) (st : SchedState)
    (f : FsFile) :
    (step now db ev st f).recentCompleted = st.recentCompleted ∨
      (step now db ev st f).recentCompleted = dequeAppend st.recentCompleted f.name := by
  unfold step
  dsimp only
  split_ifs
  · exact Or.inl rfl
  · exact Or.inl (by simpa using move_to_failed_recent _ _ _ _ _ _ _)
  · rw [show (process_file { st with fileSizes :=
      (is_file_stable st.fileSizes now db f.name (statForStability f (ev f.name))).2 }
        f (ev f.name)).recentCompleted = _ from recent_process_file _ _ _]
    split_ifs
    · exact Or.inl rfl
    · exact Or.inr rfl

theorem dequeAppend_len (xs : List String) (x : String) (h : xs.length ≤ 10) :
    (dequeAppend xs x).length ≤ 10 := by
  unfold dequeAppend
  split_ifs with hlt
  · simp; omega
  · simp [List.length_tail]; omega

theorem recent_len_step (now db : Int) (ev : String → FileEvents) (st : SchedState)
    (f : FsFile) (h : st.recentCompleted.length ≤ 10) :
    (step now db ev st f).recentCompleted.length ≤ 10 := by
  rcases recent_step_cases now db ev st f with hc | hc
  · rw [hc]; exact h
  · rw [hc]; exact dequeAppend_len _ _ h

theorem currentFile_step_none (now db : Int) (ev : String → FileEvents) (st : SchedState)
    (f : FsFile) (h : st.currentFile = none) :
    (step now db ev st f).currentFile = none := by
  unfold step
  dsimp only
  split_ifs
  · exact h
  · rw [move_to_failed_currentFile]; exact h
  · exact currentFile_process_file _ _ _

theorem foldl_step_frame (now db : Int) (ev : String → FileEvents) (l : List FsFile)
    (st : SchedState) (g : FsFile) (hl : ∀ x ∈ l, x.name ≠ g.name) :
    (g ∈ (l.foldl (step now db ev) st).incoming ↔ g ∈ st.incoming)
    ∧ (g.name ∈ names (l.foldl (step now db ev) st).processing ↔
        g.name ∈ names st.processing)
    ∧ (g.name ∈ names (l.foldl (step now db ev) st).failed ↔ g.name ∈ names st.failed)
    ∧ lookupSize (l.foldl (step now db ev) st).fileSizes g.name =
        lookupSize st.fileSizes g.name := by
  induction l generalizing st with
  | nil => simp
  | cons x xs ih =>
    have hx : x.name ≠ g.name := hl x (List.mem_cons_self x xs)
    have hxs : ∀ y ∈ xs, y.name ≠ g.name := fun y hy => hl y (List.mem_cons_of_mem x hy)
    have hne : g.name ≠ x.name := fun hh => hx hh.symm
    rcases ih (step now db ev st x) hxs with ⟨i1, i2, i3, i4⟩
    refine ⟨?_, ?_, ?_, ?_⟩
    · simpa [i1] using
        (by simpa using mem_incoming_step_other now db ev st x g hne :
          (g ∈ (step now db ev st x).incoming ↔ g ∈ st.incoming))
    · simpa [i2] using names_processing_step_other now db ev st x g.name hne
    · simpa [i3] using names_failed_step_other now db ev st x g.name hne
    · rw [List.foldl_cons, i4, fileSizes_step_other now db ev st x g.name hne]

theorem foldl_recent_len (now db : Int) (ev : String → FileEvents) (l : List FsFile)
    (st : SchedState) (h : st.recentCompleted.length ≤ 10) :
    (l.foldl (step now db ev) st).recentCompleted.length ≤ 10 := by
  induction l generalizing st with
  | nil => simpa using h
  | cons x xs ih => exact ih (step now db ev st x) (recent_len_step now db ev st x h)

theorem foldl_currentFile_none (now db : Int) (ev : String → FileEvents) (l : List FsFile)
    (st : SchedState) (h : st.currentFile = none) :
    (l.foldl (step now db ev) st).currentFile = none := by
  induction l generalizing st with
  | nil => simpa using h
  | cons x xs ih => exact ih (step now db ev st x) (currentFile_step_none now db ev st x h)

theorem foldl_lookup_other (now db : Int) (ev : String → FileEvents) (l : List FsFile)
    (st : SchedState) (n : String) (hl : ∀ x ∈ l, x.name ≠ n) :
    lookupSize (l.foldl (step now db ev) st).fileSizes n = lookupSize st.fileSizes n := by
  induction l generalizing st with
  | nil => rfl
  | cons x xs ih =>
    have hx : n ≠ x.name := fun hh => hl x (List.mem_cons_self x xs) hh.symm
    rw [List.foldl_cons, ih (step now db ev st x)
      (fun y hy => hl y (List.mem_cons_of_mem x hy)),
      fileSizes_step_other now db ev st x n hx]

/-! ### Discovery lemmas -/

theorem mem_discover_files (inc : List FsFile) (g : FsFile) :
    g ∈ discover_files inc ↔ g ∈ inc ∧ supportedFile g = true ∧ 0 < g.size := by
  simp [discover_files, mem_sortByName, List.mem_filter, and_assoc]

theorem nodup_names_discover (inc : List FsFile) (h : (names inc).Nodup) :
    (names (discover_files inc)).Nodup := by
  have hperm : (names (discover_files inc)).Perm
      (names (inc.filter (fun f => supportedFile f && decide (0 < f.size)))) :=
    (sortByName_perm _).map FsFile.name
  have hsub : (names (inc.filter (fun f => supportedFile f && decide (0 < f.size)))).Sublist
      (names inc) := (List.filter_sublist inc).map FsFile.name
  exact hperm.nodup_iff.2 (h.sublist hsub)

theorem name_inj_of_nodup (l : List FsFile) (h : (names l).Nodup) (f g : FsFile)
    (hf : f ∈ l) (hg : g ∈ l) (heq : f.name = g.name) : f = g :=
  List.inj_on_of_nodup_map (by simpa [names] using h) hf hg heq

theorem discover_filesE_ok (ev : String → FileEvents) (l : List FsFile)
    (h : ∀ f ∈ l, (ev f.name).statFailsDuringDiscovery = false) :
    discover_filesE ev l =
      Except.ok (l.filter (fun f => supportedFile f && decide (0 < f.size))) := by
  induction l with
  | nil => rfl
  | cons f fs ih =>
    have hf := h f (List.mem_cons_self f fs)
    have hfs : ∀ g ∈ fs, (ev g.name).statFailsDuringDiscovery = false :=
      fun g hg => h g (List.mem_cons_of_mem f hg)
    by_cases hs : supportedFile f
    · by_cases hp : 0 < f.size <;>
        simp [discover_filesE, hs, hf, ih hfs, List.filter_cons, hp]
    · simp [discover_filesE, hs, ih hfs, List.filter_cons]

/-- When the stability check reports not-stable, the loop body only
updates the size-record map. -/
theorem step_not_stable (now db : Int) (ev : String → FileEvents) (st : SchedState)
    (f : FsFile)
    (h : (is_file_stable st.fileSizes now db f.name (statForStability f (ev f.name))).1
      = false) :
    step now db ev st f = { st with fileSizes :=
      (is_file_stable st.fileSizes now db f.name (statForStability f (ev f.name))).2 } := by
  unfold step
  dsimp only
  rw [if_pos h]

/-! ### Orphan-recovery lemmas -/

theorem mem_names_foldl_moveInto_mono (l : List FsFile) (acc : List FsFile) (n : String)
    (h : n ∈ names acc) : n ∈ names (l.foldl moveInto acc) := by
  induction l generalizing acc with
  | nil => simpa using h
  | cons x xs ih =>
    exact ih (moveInto acc x) ((mem_names_moveInto acc x n).2 (Or.inr h))

theorem mem_names_foldl_moveInto_self (l : List FsFile) (acc : List FsFile) (f : FsFile)
    (hf : f ∈ l) : f.name ∈ names (l.foldl moveInto acc) := by
  induction l generalizing acc with
  | nil => cases hf
  | cons x xs ih =>
    rcases List.mem_cons.1 hf with rfl | hmem
    · by_cases hx : f ∈ xs
      · exact ih (moveInto acc f) hx
      · exact mem_names_foldl_moveInto_mono xs (moveInto acc f) f.name
          ((mem_names_moveInto acc f f.name).2 (Or.inl rfl))
    · exact ih (moveInto acc x) hmem

theorem nodup_names_foldl_moveInto (l : List FsFile) (acc : List FsFile)
    (h : (names acc).Nodup) : (names (l.foldl moveInto acc)).Nodup := by
  induction l generalizing acc with
  | nil => simpa using h
  | cons x xs ih => exact ih (moveInto acc x) (nodup_names_moveInto acc x h)

/-- Splitting the extension-only count of `get_queue_status` into the
spec's eligible count plus the zero-byte supported files. -/
theorem length_filter_supported_split (l : List FsFile) :
    (l.filter (fun f => supportedFile f)).length
      = (l.filter (fun f => supportedFile f && decide (0 < f.size))).length
        + (l.filter (fun f => supportedFile f && decide (f.size = 0))).length := by
  induction l with
  | nil => rfl
  | cons f fs ih =>
    by_cases hs : supportedFile f
    · rcases Nat.eq_zero_or_pos f.size with hz | hp
      · simp [List.filter_cons, hs, hz, ih]
        omega
      · have hz : ¬ f.size = 0 := Nat.pos_iff_ne_zero.1 hp
        simp [List.filter_cons, hs, hp, hz, ih]
        omega
    · simp [List.filter_cons, hs, ih]

/-! ### Claim theorems -/

/-- Claim C10: after every invocation of the per-file processing
operation returns — on successful completion, on engine or artifact
failure, and on failure to move the file into processing — the
`current_file` field of the status snapshot is `none` again; and a pass
started with no file in flight also ends with no file in flight. -/
theorem claim_C10 (st : SchedState) (f : FsFile) (e : FileEvents) (now db : Int)
    (ev : String → FileEvents) :
    (process_file st f e).currentFile = none
    ∧ (∀ ms : ModelState, (get_queue_status (process_file st f e) ms).current_file = none)
    ∧ (st.currentFile = none → (runPass now db ev st).currentFile = none) :=
  ⟨currentFile_process_file st f e,
   fun ms => by simp [get_queue_status, currentFile_process_file st f e],
   fun h => foldl_currentFile_none now db ev (discover_files st.incoming) st h⟩

theorem claim_C10_witness :
    (process_file baseState goodMp3 noEvents).currentFile = none
    ∧ (runPass 100 2 evQuiet baseState).currentFile = none := by
  obtain ⟨h1, _, h3⟩ := claim_C10 baseState goodMp3 noEvents 100 2 evQuiet
  exact ⟨h1, h3 rfl⟩

/-- Claim C8: the recent-completed list never exceeds 10 entries across
a pass; it changes only when a file completes successfully, in which
case the name is appended through the fixed-capacity FIFO append, which
evicts the oldest entry exactly when the list is full. -/
theorem claim_C8 (now db : Int) (ev : String → FileEvents) (st : SchedState)
    (f : FsFile) (e : FileEvents) (x : String) :
    (st.recentCompleted.length ≤ 10 → (runPass now db ev st).recentCompleted.length ≤ 10)
    ∧ (e.moveToProcessingFails = true ∨ e.engineFails = true ∨ e.artifactWriteFails = true
        ∨ e.moveToCompletedFails = true →
        (process_file st f e).recentCompleted = st.recentCompleted)
    ∧ (e.moveToProcessingFails = false → e.engineFails = false →
        e.artifactWriteFails = false → e.moveToCompletedFails = false →
        (process_file st f e).recentCompleted = dequeAppend st.recentCompleted f.name)
    ∧ ((step now db ev st f).recentCompleted = st.recentCompleted
        ∨ (step now db ev st f).recentCompleted = dequeAppend st.recentCompleted f.name)
    ∧ (st.recentCompleted.length = 10 →
        dequeAppend st.recentCompleted x = st.recentCompleted.tail ++ [x])
    ∧ (st.recentCompleted.length < 10 →
        dequeAppend st.recentCompleted x = st.recentCompleted ++ [x]) := by
  refine ⟨fun h => foldl_recent_len now db ev (discover_files st.incoming) st h,
    ?_, ?_, recent_step_cases now db ev st f, ?_, ?_⟩
  · intro hor
    rw [recent_process_file]
    rcases hor with h | h | h | h <;> simp [h]
  · intro h1 h2 h3 h4
    rw [recent_process_file]
    simp [h1, h2, h3, h4]
  · intro h
    unfold dequeAppend
    rw [if_neg (by omega)]
  · intro h
    unfold dequeAppend
    rw [if_pos h]

theorem claim_C8_witness :
    (runPass 100 2 evQuiet c8State).recentCompleted.length ≤ 10
    ∧ dequeAppend c8State.recentCompleted "a10"
        = c8State.recentCompleted.tail ++ ["a10"] := by
  obtain ⟨h1, -, -, -, h5, -⟩ := claim_C8 100 2 evQuiet c8State goodMp3 noEvents "a10"
  exact ⟨h1 (by decide), h5 (by decide)⟩

/-- Claim C7: on construction and on each `start` call, orphan recovery
empties the processing directory, every orphaned file's name reappears
in incoming, and the recovery introduces no duplicate names. -/
theorem claim_C7 (inc proc comp fl : List FsFile) (st : SchedState) :
    ((scheduler_init inc proc comp fl).processing = []
     ∧ (∀ f ∈ proc, f.name ∈ names (scheduler_init inc proc comp fl).incoming)
     ∧ ((names inc).Nodup → (names (scheduler_init inc proc comp fl).incoming).Nodup))
    ∧ ((scheduler_start st).processing = []
     ∧ (∀ f ∈ st.processing, f.name ∈ names (scheduler_start st).incoming)
     ∧ ((names st.incoming).Nodup → (names (scheduler_start st).incoming).Nodup)) := by
  refine ⟨⟨rfl, ?_, ?_⟩, rfl, ?_, ?_⟩
  · intro f hf
    exact mem_names_foldl_moveInto_self proc inc f hf
  · intro h
    exact nodup_names_foldl_moveInto proc inc h
  · intro f hf
    exact mem_names_foldl_moveInto_self st.processing st.incoming f hf
  · intro h
    exact nodup_names_foldl_moveInto st.processing st.incoming h

theorem claim_C7_witness :
    (scheduler_init [goodMp3] [orphanMp3] [] []).processing = []
    ∧ orphanMp3.name ∈ names (scheduler_init [goodMp3] [orphanMp3] [] []).incoming
    ∧ (names (scheduler_init [goodMp3] [orphanMp3] [] []).incoming).Nodup := by
  obtain ⟨⟨h1, h2, h3⟩, -⟩ := claim_C7 [goodMp3] [orphanMp3] [] [] baseState
  exact ⟨h1, h2 orphanMp3 (by decide), h3 (by decide)⟩

/-- Claim C4, counterexample: with a single zero-byte supported file in
incoming, `get_queue_status` reports a queue length of 1, while the
claimed count (supported extension and positive size) is 0 — the source
applies no size filter. -/
theorem claim_C4_counterexample :
    (get_queue_status c1State ModelState.unloaded).queue_length = 1
    ∧ spec_queue_length c1State.incoming = 0
    ∧ emptyMp3 ∈ c1State.incoming
    ∧ emptyMp3.size = 0
    ∧ supportedFile emptyMp3 = true := by
  decide

/-- Claim C4, amended: `get_queue_status` re-scans incoming at call time
and counts the files with a supported extension regardless of size, so
its count equals the spec's eligible count plus the number of zero-byte
supported files. -/
theorem claim_C4_amended (st : SchedState) (ms : ModelState) :
    (get_queue_status st ms).queue_length
      = spec_queue_length st.incoming
        + (st.incoming.filter (fun f => supportedFile f && decide (f.size = 0))).length
    ∧ (get_queue_status st ms).current_file = st.currentFile
    ∧ (get_queue_status st ms).model_state = ms
    ∧ (get_queue_status st ms).recent_completed = st.recentCompleted := by
  refine ⟨?_, rfl, rfl, rfl⟩
  simpa [get_queue_status, spec_queue_length] using length_filter_supported_split st.incoming

/-- Claim C6, counterexample: a file vanishing between the directory
listing and the size `stat` inside `_discover_files` makes the whole
pass propagate the `stat` exception to its caller. -/
theorem claim_C6_counterexample :
    process_incoming_filesE 100 2 evDiscoveryStat c6State
      = Except.error "stat failed during discovery"
    ∧ goodMp3 ∈ c6State.incoming
    ∧ supportedFile goodMp3 = true
    ∧ 0 < goodMp3.size :=
  ⟨rfl, by decide, by decide, by decide⟩

/-- Claim C6, amended: provided no `stat` fails during the discovery
scan itself, a pass propagates no exception for any combination of
per-file outcomes (vanishing before the stability or validity `stat`,
move failures, engine exceptions, artifact- and log-write failures): it
completes with the state obtained by stepping every discovered file in
order. -/
theorem claim_C6_amended (now db : Int) (ev : String → FileEvents) (st : SchedState)
    (h : ∀ f ∈ st.incoming, (ev f.name).statFailsDuringDiscovery = false) :
    process_incoming_filesE now db ev st = Except.ok (runPass now db ev st) := by
  unfold process_incoming_filesE runPass discover_files
  rw [discover_filesE_ok ev st.incoming h]

theorem claim_C6_witness :
    process_incoming_filesE 100 2 evQuiet c6State
      = Except.ok (runPass 100 2 evQuiet c6State) :=
  claim_C6_amended 100 2 evQuiet c6State (fun _ _ => rfl)

/-- Claim C1, counterexample: a zero-byte supported file in incoming is
untouched by a full discovery-and-process pass — it is not moved to
failed and no diagnostic record is written, contradicting the claimed
routing. -/
theorem claim_C1_counterexample :
    runPass 100 2 evQuiet c1State = c1State
    ∧ c1State.failed = []
    ∧ c1State.errorLogs = []
    ∧ c1State.processing = []
    ∧ emptyMp3 ∈ c1State.incoming
    ∧ emptyMp3.size = 0
    ∧ supportedFile emptyMp3 = true := by
  decide

/-- Claim C1, amended: a zero-byte file with a supported extension is
excluded at discovery, so a pass leaves it in incoming; it never appears
in processing and is never routed to failed (the invalid-file path is
reachable only for files whose size reads as zero, or unreadable, after
they were discovered with a positive size). -/
theorem claim_C1_amended (now db : Int) (ev : String → FileEvents) (st : SchedState)
    (f : FsFile) (hmem : f ∈ st.incoming) (hz : f.size = 0)
    (hnd : (names st.incoming).Nodup) :
    f ∉ discover_files st.incoming
    ∧ f ∈ (runPass now db ev st).incoming
    ∧ (f.name ∉ names st.processing → f.name ∉ names (runPass now db ev st).processing)
    ∧ (f.name ∉ names st.failed → f.name ∉ names (runPass now db ev st).failed) := by
  have hnotdisc : f ∉ discover_files st.incoming := by
    intro hc
    have hpos := ((mem_discover_files st.incoming f).1 hc).2.2
    omega
  have hother : ∀ x ∈ discover_files st.incoming, x.name ≠ f.name := by
    intro x hx heq
    have hxin := ((mem_discover_files st.incoming x).1 hx).1
    have hxf := name_inj_of_nodup st.incoming hnd x f hxin hmem heq
    exact hnotdisc (hxf ▸ hx)
  obtain ⟨h1, h2, h3, h4⟩ :=
    foldl_step_frame now db ev (discover_files st.incoming) st f hother
  exact ⟨hnotdisc, h1.2 hmem, fun hp hc => hp (h2.1 hc), fun hp hc => hp (h3.1 hc)⟩

theorem claim_C1_witness :
    emptyMp3 ∉ discover_files c1State.incoming
    ∧ emptyMp3 ∈ (runPass 100 2 evQuiet c1State).incoming
    ∧ emptyMp3.name ∉ names (runPass 100 2 evQuiet c1State).processing := by
  obtain ⟨h1, h2, h3, -⟩ :=
    claim_C1_amended 100 2 evQuiet c1State emptyMp3 (by decide) (by decide) (by decide)
  exact ⟨h1, h2, h3 (by decide)⟩

/-- Claim C2: the stability check reports not-stable within the debounce
window (touching no record), on a first observation (creating the
record), and on a size change (updating the record); it reports stable
exactly on a matching record, deleting it — and consequently a file
whose current size differs from its recorded size is still in incoming
when the pass ends. -/
theorem claim_C2 (sizes : List (String × Nat)) (now db : Int) (key : String)
    (cs r : Nat) (mt : Int) :
    (now - mt < db → is_file_stable sizes now db key (some (cs, mt)) = (false, sizes))
    ∧ (¬ now - mt < db → lookupSize sizes key = none →
        is_file_stable sizes now db key (some (cs, mt)) = (false, setSize sizes key cs))
    ∧ (¬ now - mt < db → lookupSize sizes key = some r → r ≠ cs →
        is_file_stable sizes now db key (some (cs, mt)) = (false, setSize sizes key cs))
    ∧ (¬ now - mt < db → lookupSize sizes key = some cs →
        is_file_stable sizes now db key (some (cs, mt)) = (true, eraseSize sizes key))
    ∧ (∀ (ev : String → FileEvents) (st : SchedState) (f : FsFile),
        f ∈ st.incoming → (names st.incoming).Nodup →
        lookupSize st.fileSizes f.name = some r → r ≠ f.size →
        f ∈ (runPass now db ev st).incoming) := by
  refine ⟨fun h => is_file_stable_recent sizes now db key cs mt h,
    fun h hl => is_file_stable_first sizes now db key cs mt h hl,
    fun h hl hne => is_file_stable_changed sizes now db key cs r mt h hl hne,
    fun h hl => is_file_stable_match sizes now db key cs mt h hl, ?_⟩
  intro ev st f hmem hnd hlk hne
  unfold runPass
  by_cases hd : f ∈ discover_files st.incoming
  · obtain ⟨l1, l2, hsplit⟩ := List.append_of_mem hd
    have hndd : (names (discover_files st.incoming)).Nodup := nodup_names_discover _ hnd
    rw [hsplit] at hndd ⊢
    have hnames : names (l1 ++ f :: l2) = names l1 ++ f.name :: names l2 := by
      simp [names]
    rw [hnames] at hndd
    obtain ⟨hnd1, hnd2, hdisj⟩ := List.nodup_append.1 hndd
    have hl1 : ∀ x ∈ l1, x.name ≠ f.name := by
      intro x hx heq
      exact hdisj (mem_names_of_mem hx) (by rw [heq]; exact List.mem_cons_self _ _)
    have hl2 : ∀ x ∈ l2, x.name ≠ f.name := by
      intro x hx heq
      have hin : f.name ∈ names l2 := heq ▸ mem_names_of_mem hx
      exact (List.nodup_cons.1 hnd2).1 hin
    rw [List.foldl_append, List.foldl_cons]
    obtain ⟨p1, -, -, p4⟩ := foldl_step_frame now db ev l1 st f hl1
    have hmem1 : f ∈ (l1.foldl (step now db ev) st).incoming := p1.2 hmem
    have hlk1 : lookupSize (l1.foldl (step now db ev) st).fileSizes f.name = some r := by
      rw [p4]; exact hlk
    have hns : (is_file_stable (l1.foldl (step now db ev) st).fileSizes now db f.name
        (statForStability f (ev f.name))).1 = false :=
      is_file_stable_mismatch _ now db f (ev f.name) r hlk1 hne
    have hstep : f ∈ (step now db ev (l1.foldl (step now db ev) st) f).incoming := by
      rw [step_not_stable now db ev (l1.foldl (step now db ev) st) f hns]
      exact hmem1
    exact (foldl_step_frame now db ev l2 (step now db ev (l1.foldl (step now db ev) st) f)
      f hl2).1.2 hstep
  · have hother : ∀ x ∈ discover_files st.incoming, x.name ≠ f.name := by
      intro x hx heq
      have hxin := ((mem_discover_files st.incoming x).1 hx).1
      have hxf := name_inj_of_nodup st.incoming hnd x f hxin hmem heq
      exact hd (hxf ▸ hx)
    exact (foldl_step_frame now db ev (discover_files st.incoming) st f hother).1.2 hmem

theorem claim_C2_witness : c2File ∈ (runPass 100 2 evQuiet c2State).incoming := by
  obtain ⟨-, -, -, -, h5⟩ := claim_C2 [] 100 2 "" 0 3 0
  exact h5 evQuiet c2State c2File (by decide) (by decide) (by decide) (by decide)

/-- Claim C3, counterexample: when the engine call fails, `transcribe`
returns with the lifecycle state unchanged — the previously armed
idle-unload task (identifier 0) is still armed and no new task was
scheduled, contradicting the claimed re-arming on every return. -/
theorem claim_C3_counterexample :
    transcribe c3State c3Events 50 = (c3State, Except.error "engine failed")
    ∧ c3State.unloadTask = some 0
    ∧ (transcribe c3State c3Events 50).1.unloadTask = some 0
    ∧ (transcribe c3State c3Events 50).1.nextTaskId = c3State.nextTaskId :=
  ⟨rfl, rfl, rfl, rfl⟩

/-- Claim C3, amended: the idle-unload timer is cancelled and re-armed
only when the engine inference succeeds (just before the hash
computation); a failing model load or a failing inference returns with
the previously armed timer untouched, and a hash failure after a
successful inference fails the call with the fresh timer armed. -/
theorem claim_C3_amended (st : LifeState) (e : TransEvents) (now : Int) :
    (st.modelState = ModelState.unloaded → e.loadFails = true →
      transcribe st e now
        = ({ st with modelState := ModelState.unloaded }, Except.error "load failed"))
    ∧ (st.modelState ≠ ModelState.unloaded → e.engineFails = true →
      transcribe st e now = (st, Except.error "engine failed"))
    ∧ (st.modelState = ModelState.unloaded → e.loadFails = false → e.engineFails = true →
      transcribe st e now
        = ({ st with modelState := ModelState.ready }, Except.error "engine failed"))
    ∧ (e.engineFails = false →
        (e.loadFails = false ∨ st.modelState ≠ ModelState.unloaded) →
      ((transcribe st e now).1.unloadTask = some st.nextTaskId
       ∧ (transcribe st e now).1.nextTaskId = st.nextTaskId + 1
       ∧ (transcribe st e now).1.lastUsedAt = some now
       ∧ (transcribe st e now).2
          = (if e.hashFails then Except.error "hash failed" else Except.ok ()))) := by
  refine ⟨?_, ?_, ?_, ?_⟩
  · intro hm hl
    simp [transcribe, load_model, hm, hl]
  · intro hm he
    simp [transcribe, load_model, hm, he]
  · intro hm hl he
    simp [transcribe, load_model, hm, hl, he]
  · intro he hor
    by_cases hh : e.hashFails = true
    · rcases hor with hl | hm
      · by_cases hm : st.modelState = ModelState.unloaded
        · simp [transcribe, load_model, schedule_unload, hm, hl, he, hh]
        · simp [transcribe, load_model, schedule_unload, hm, he, hh]
      · simp [transcribe, load_model, schedule_unload, hm, he, hh]
    · rcases hor with hl | hm
      · by_cases hm : st.modelState = ModelState.unloaded
        · simp [transcribe, load_model, schedule_unload, hm, hl, he, hh]
        · simp [transcribe, load_model, schedule_unload, hm, he, hh]
      · simp [transcribe, load_model, schedule_unload, hm, he, hh]

theorem claim_C3_witness :
    (transcribe c3State c3OkEvents 50).1.unloadTask = some 1
    ∧ (transcribe c3State c3OkEvents 50).1.nextTaskId = 2
    ∧ (transcribe c3State c3OkEvents 50).2 = Except.ok () := by
  obtain ⟨-, -, -, h4⟩ := claim_C3_amended c3State c3OkEvents 50
  obtain ⟨h1, h2, -, hres⟩ := h4 rfl (Or.inl rfl)
  exact ⟨h1, h2, hres⟩

/-- Claim C5, counterexample: a candidate that vanishes between
discovery and the stability `stat` is skipped by the pass (the
`OSError` handler of the stability check reports not-stable), so it is
not routed to failed and no invalid-file diagnostic is written. -/
theorem claim_C5_counterexample :
    runPass 100 2 evVanishStability c5State = c5State
    ∧ c5State.failed = []
    ∧ c5State.errorLogs = []
    ∧ c5File ∈ c5State.incoming
    ∧ 0 < c5File.size := by
  decide

/-- Claim C5, amended: a file that disappears before the stability
`stat` takes the not-stable path and the loop body leaves the state
unchanged for that pass; only a file that disappears after a stable
judgment and before the validity `stat` takes the `isValid`-false path,
where the diagnostic record is written with the invalid-file reason but
no move occurs (the file no longer exists). -/
theorem claim_C5_amended (now db : Int) (ev : String → FileEvents) (st : SchedState)
    (f : FsFile) :
    ((ev f.name).vanishesBeforeStability = true → step now db ev st f = st)
    ∧ ((ev f.name).vanishesBeforeStability = false →
       (ev f.name).vanishesBeforeValidity = true →
       (is_file_stable st.fileSizes now db f.name (some (f.size, f.mtime))).1 = true →
       (ev f.name).errorLogWriteFails = false →
       ((step now db ev st f).errorLogs = (f.stem, invalidReason) :: st.errorLogs
        ∧ (step now db ev st f).incoming = st.incoming
        ∧ (step now db ev st f).failed = st.failed
        ∧ (step now db ev st f).processing = st.processing)) := by
  constructor
  · intro hv
    unfold step
    dsimp only
    simp [statForStability, hv, is_file_stable]
  · intro hv hvv hs hw
    have hsf : statForStability f (ev f.name) = some (f.size, f.mtime) := by
      simp [statForStability, hv]
    unfold step
    dsimp only
    rw [hsf, if_neg (by simp [hs]), if_pos (by simp [is_valid_file, hv, hvv]),
      show fileExistsForFailed (ev f.name) = false by
        simp [fileExistsForFailed, hv, hvv]]
    simp [move_to_failed, hw]

theorem claim_C5_witness :
    step 100 2 evVanishStability c5State c5File = c5State
    ∧ (step 100 2 evVanishValidity c5bState c5File).errorLogs
        = (c5File.stem, invalidReason) :: c5bState.errorLogs
    ∧ (step 100 2 evVanishValidity c5bState c5File).failed = c5bState.failed := by
  obtain ⟨h1, -⟩ := claim_C5_amended 100 2 evVanishStability c5State c5File
  obtain ⟨-, h2⟩ := claim_C5_amended 100 2 evVanishValidity c5bState c5File
  obtain ⟨h2a, -, h2c, -⟩ := h2 (by decide) (by decide) (by decide) (by decide)
  exact ⟨h1 (by decide), h2a, h2c⟩

/-- Claim C9, counterexample: a stability record whose file is no longer
in incoming survives a full pass — the record is not removed when the
file disappears without having been judged stable. -/
theorem claim_C9_counterexample :
    runPass 100 2 evQuiet c9State = c9State
    ∧ c9State.incoming = []
    ∧ lookupSize c9State.fileSizes "ghost.mp3" = some 5 := by
  decide

/-- Claim C9, amended: the stability record is deleted exactly when the
file is judged stable — the judgment that precedes every scheduler-driven
move out of incoming — and the deletion survives the rest of the loop
body; but a record for a file that is no longer in incoming is retained
unchanged across a whole pass. -/
theorem claim_C9_amended (sizes : List (String × Nat)) (now db : Int) (key : String)
    (sr : Option (Nat × Int)) (ev : String → FileEvents) (st : SchedState) (f : FsFile) :
    ((is_file_stable sizes now db key sr).1 = true →
      lookupSize (is_file_stable sizes now db key sr).2 key = none)
    ∧ ((is_file_stable st.fileSizes now db f.name (statForStability f (ev f.name))).1
        = true →
      lookupSize (step now db ev st f).fileSizes f.name = none)
    ∧ ((∀ g ∈ st.incoming, g.name ≠ key) →
      lookupSize (runPass now db ev st).fileSizes key = lookupSize st.fileSizes key) := by
  refine ⟨?_, ?_, ?_⟩
  · intro h
    rw [is_file_stable_erases_on_true sizes now db key sr h]
    exact lookupSize_eraseSize_self sizes key
  · intro h
    have hsz : (step now db ev st f).fileSizes
        = (is_file_stable st.fileSizes now db f.name (statForStability f (ev f.name))).2 := by
      unfold step
      dsimp only
      split_ifs
      · rfl
      · rw [move_to_failed_fileSizes]
      · rw [fileSizes_process_file]
    rw [hsz, is_file_stable_erases_on_true _ _ _ _ _ h]
    exact lookupSize_eraseSize_self _ _
  · intro hno
    have hl : ∀ x ∈ discover_files st.incoming, x.name ≠ key := by
      intro x hx
      exact hno x ((mem_discover_files st.incoming x).1 hx).1
    exact foldl_lookup_other now db ev (discover_files st.incoming) st key hl

theorem claim_C9_witness :
    lookupSize (is_file_stable [("a.mp3", 5)] 100 2 "a.mp3" (some (5, 0))).2 "a.mp3" = none
    ∧ lookupSize (runPass 100 2 evQuiet c9State).fileSizes "ghost.mp3" = some 5 := by
  obtain ⟨h1, -, -⟩ :=
    claim_C9_amended [("a.mp3", 5)] 100 2 "a.mp3" (some (5, 0)) evQuiet c9State goodMp3
  obtain ⟨-, -, h3⟩ :=
    claim_C9_amended [("a.mp3", 5)] 100 2 "ghost.mp3" (some (5, 0)) evQuiet c9State goodMp3
  refine ⟨h1 (by decide), ?_⟩
  rw [h3 (by intro g hg; simp [c9State, baseState] at hg)]
  decide

end Cymatics
